import Mathlib

/-!
# Verification development for the atcrypto Vault secrets backend

Shallow embedding of `backend/keys.go` and `backend/paths.go`.

* Go strings are Lean `String`s, byte slices are lists of `Fin 256`.
* A Go result pair `(*logical.Response, error)` is the structure `Result`
  with two optional components, so "no response on the error path" is a
  property of the code and not of the type.
* The libraries the backend calls but does not contain (the `atcrypto`
  package, the Vault SDK storage interface and its JSON helpers) are
  parameters: structures of functions. `encoding/hex` is modelled concretely.
* Randomness consumed by key generation and signing is an explicit argument.
-/

namespace Backend

/-! ## Go values -/

abbrev Byte := Fin 256

abbrev Bytes := List Byte

/-- Bytes read from the system random source during one call. -/
abbrev Entropy := List Byte

/-- Go `error` values seen by the backend. `errorf` is `fmt.Errorf` with the
formatted message, the two `hex` constructors are the errors of
`encoding/hex`, `external` is an error made by a library or by the host. -/
inductive Error where
  | errorf (msg : String)
  | hexInvalidByte (c : Char)
  | hexErrLength
  | external (msg : String)
deriving DecidableEq, Repr

/-! ## encoding/hex -/

/-- Table `reverseHexTable` of `encoding/hex`: the value of a hex digit
(either case), `0xff` for any other byte. -/
def reverseHexTable (c : Char) : Nat :=
  match c with
  | '0' => 0 | '1' => 1 | '2' => 2 | '3' => 3 | '4' => 4
  | '5' => 5 | '6' => 6 | '7' => 7 | '8' => 8 | '9' => 9
  | 'a' => 10 | 'b' => 11 | 'c' => 12 | 'd' => 13 | 'e' => 14 | 'f' => 15
  | 'A' => 10 | 'B' => 11 | 'C' => 12 | 'D' => 13 | 'E' => 14 | 'F' => 15
  | _ => 0xff

/-- The byte `(a << 4) | b` of `hex.Decode`. -/
def packNibbles (a b : Nat) : Byte :=
  ⟨(a <<< 4 ||| b) % 256, Nat.mod_lt _ (by decide)⟩

/-- Function `hex.Decode`: pairs of digits become bytes; an invalid digit is
reported before an odd length. -/
def hexDecode : List Char → Except Error Bytes
  | p :: q :: rest =>
    let a := reverseHexTable p
    let b := reverseHexTable q
    if a > 0x0f then .error (.hexInvalidByte p)
    else if b > 0x0f then .error (.hexInvalidByte q)
    else
      match hexDecode rest with
      | .ok bs => .ok (packNibbles a b :: bs)
      | .error e => .error e
  | [p] =>
    if reverseHexTable p > 0x0f then .error (.hexInvalidByte p)
    else .error .hexErrLength
  | [] => .ok []

/-- Function `hex.DecodeString`. -/
def DecodeString (s : String) : Except Error Bytes :=
  hexDecode s.data

/-- The constant `hextable = "0123456789abcdef"` of `encoding/hex`. -/
def hextable : List Char :=
  ['0', '1', '2', '3', '4', '5', '6', '7', '8', '9', 'a', 'b', 'c', 'd', 'e', 'f']

/-- The two digits `hextable[v>>4]`, `hextable[v&0x0f]` of one byte. -/
def hexEncodeByte (v : Byte) : List Char :=
  [hextable.getD (v.val >>> 4) '0', hextable.getD (v.val &&& 0x0f) '0']

/-- Function `hex.EncodeToString`. -/
def EncodeToString (src : Bytes) : String :=
  ⟨src.flatMap hexEncodeByte⟩

/-- Function `strings.HasSuffix`. -/
def HasSuffix (s sfx : String) : Bool :=
  sfx.data.isSuffixOf s.data

/-- Function `slices.DeleteFunc`: removes the elements for which `del` holds and
keeps the others in order. -/
def DeleteFunc {α : Type} (s : List α) (del : α → Bool) : List α :=
  s.filter fun x => !del x

/-! ## Data model -/

/-- The stored record, `type key struct`. -/
structure key where
  Exportable : Bool
  PrivateKey : String
  PublicKey : String
deriving DecidableEq, Repr

/-- A value held in `logical.Response.Data`. -/
inductive Value where
  | bool (b : Bool)
  | str (s : String)
  | strs (l : List String)
deriving DecidableEq, Repr

/-- Structure `logical.Response`, reduced to its `Data` map (field name, value). -/
structure Response where
  Data : List (String × Value)
deriving DecidableEq, Repr

/-- The names of the fields of a response. -/
def Response.fields (r : Response) : List String :=
  r.Data.map Prod.fst

/-- Map lookup in `Data`. -/
def Response.get (r : Response) (field : String) : Option Value :=
  (r.Data.find? fun p => p.1 == field).map Prod.snd

/-- A Go result pair `(*logical.Response, error)`. -/
structure Result where
  resp : Option Response
  err : Option Error
deriving DecidableEq, Repr

/-- The typed request fields (`framework.FieldData` after the defaults of
`paths.go` are applied: `exportable` false, `privateKey` empty, `algorithm`
"secp256k1"). -/
structure FieldData where
  name : String
  privateKey : String
  exportable : Bool
  algorithm : String
  message : String
deriving DecidableEq, Repr

/-- A storage entry, `logical.StorageEntry`: the path and the serialised value. -/
structure StorageEntry (V : Type) where
  Key : String
  Value : V
deriving DecidableEq, Repr

/-! ## External collaborators -/

/-- The functions of package `atcrypto` that the backend calls. -/
structure Atcrypto (PrivK PubK : Type) where
  ParsePrivateBytesK256 : Bytes → Except Error PrivK
  ParsePrivateBytesP256 : Bytes → Except Error PrivK
  GeneratePrivateKeyK256 : Entropy → Except Error PrivK
  GeneratePrivateKeyP256 : Entropy → Except Error PrivK
  ParsePrivateMultibase : String → Except Error PrivK
  PublicKey : PrivK → Except Error PubK
  PrivMultibase : PrivK → String
  PubMultibase : PubK → String
  PrivBytes : PrivK → Bytes
  HashAndSign : PrivK → Bytes → Entropy → Except Error Bytes

/-- The JSON helpers of the Vault SDK, `logical.StorageEntryJSON` and
`StorageEntry.DecodeJSON`, for the `key` struct, over serialised values `V`. -/
structure Json (V : Type) where
  StorageEntryJSON : String → key → Except Error (StorageEntry V)
  DecodeJSON : StorageEntry V → Except Error key

/-- The part of the Vault SDK that the backend calls: the JSON helpers and the
`logical.Storage` interface over a storage state `σ`. Every storage call may
fail; a failing `Put` or `Delete` leaves no new state. -/
structure Sdk (σ V : Type) extends Json V where
  Get : σ → String → Except Error (Option (StorageEntry V))
  Put : σ → StorageEntry V → Except Error σ
  Delete : σ → String → Except Error σ
  List : σ → String → Except Error (List String)

section Handlers

variable {σ V PrivK PubK : Type}

/-- Method `(k *key) GetPrivateKey`. -/
def key.GetPrivateKey (lib : Atcrypto PrivK PubK) (k : key) : Except Error PrivK :=
  lib.ParsePrivateMultibase k.PrivateKey

/-- Function `logical.ListResponse`: the field `keys` is set only for a
non-empty list. -/
def ListResponse (keys : List String) : Response :=
  if keys.length != 0 then ⟨[("keys", .strs keys)]⟩ else ⟨[]⟩

/-- Handler `listKeys`. -/
def listKeys (sdk : Sdk σ V) (st : σ) : Result × σ :=
  match sdk.List st "keys/" with
  | .error err => (⟨none, some err⟩, st)
  | .ok entries =>
    let entries := DeleteFunc entries fun s =>
      if HasSuffix s "/" then true else false
    (⟨some (ListResponse entries), none⟩, st)

/-- Lines 54 to 92 of `createKey`: the private key, imported from `privateKey`
when that field is not empty and generated otherwise. Every exit of this
block other than falling through is `return nil, err`. -/
def createKey.privKey (lib : Atcrypto PrivK PubK) (keyInput algorithm : String)
    (rnd : Entropy) : Except Error PrivK :=
  if keyInput != "" then
    match DecodeString keyInput with
    | .error err => .error err
    | .ok keyBytes =>
      if keyBytes.length != 32 then
        .error (.errorf ("invalid private key length: " ++ toString keyBytes.length))
      else if algorithm = "secp256k1" then
        match lib.ParsePrivateBytesK256 keyBytes with
        | .error err => .error err
        | .ok privKey => .ok privKey
      else if algorithm = "p256" then
        match lib.ParsePrivateBytesP256 keyBytes with
        | .error err => .error err
        | .ok privKey => .ok privKey
      else
        .error (.errorf ("unsupported algorithm: " ++ algorithm))
  else
    if algorithm = "secp256k1" then
      match lib.GeneratePrivateKeyK256 rnd with
      | .error err => .error err
      | .ok privKey => .ok privKey
    else if algorithm = "p256" then
      match lib.GeneratePrivateKeyP256 rnd with
      | .error err => .error err
      | .ok privKey => .ok privKey
    else
      .error (.errorf ("unsupported algorithm: " ++ algorithm))

/-- Handler `createKey`. -/
def createKey (lib : Atcrypto PrivK PubK) (sdk : Sdk σ V) (st : σ) (data : FieldData)
    (rnd : Entropy) : Result × σ :=
  let keyName := data.name
  let keyInput := data.privateKey
  let exportable := data.exportable
  let algorithm := data.algorithm
  match createKey.privKey lib keyInput algorithm rnd with
  | .error err => (⟨none, some err⟩, st)
  | .ok privKey =>
    match lib.PublicKey privKey with
    | .error err => (⟨none, some err⟩, st)
    | .ok pubKey =>
      let key : key :=
        { Exportable := exportable
          PrivateKey := lib.PrivMultibase privKey
          PublicKey := lib.PubMultibase pubKey }
      match sdk.StorageEntryJSON ("keys/" ++ keyName) key with
      | .error err => (⟨none, some err⟩, st)
      | .ok entry =>
        match sdk.Put st entry with
        | .error err => (⟨none, some err⟩, st)
        | .ok st' => (⟨some ⟨[("public_key", .str key.PublicKey)]⟩, none⟩, st')

/-- Handler `deleteKey`. -/
def deleteKey (sdk : Sdk σ V) (st : σ) (data : FieldData) : Result × σ :=
  let keyName := data.name
  match sdk.Delete st ("keys/" ++ keyName) with
  | .error err => (⟨none, some err⟩, st)
  | .ok st' => (⟨none, none⟩, st')

/-- Method `internalReadKey` (the logger calls are not modelled). -/
def internalReadKey (sdk : Sdk σ V) (st : σ) (keyName : String) : Except Error key :=
  match sdk.Get st ("keys/" ++ keyName) with
  | .error err => .error err
  | .ok none => .error (.errorf "key not found")
  | .ok (some entry) =>
    match sdk.DecodeJSON entry with
    | .error err => .error err
    | .ok keyData => .ok keyData

/-- Handler `readKey`. -/
def readKey (sdk : Sdk σ V) (st : σ) (data : FieldData) : Result × σ :=
  let keyName := data.name
  match internalReadKey sdk st keyName with
  | .error err => (⟨none, some err⟩, st)
  | .ok key =>
    (⟨some ⟨[("exportable", .bool key.Exportable), ("public_key", .str key.PublicKey)]⟩,
      none⟩, st)

/-- Handler `exportKey`. -/
def exportKey (sdk : Sdk σ V) (st : σ) (data : FieldData) : Result × σ :=
  let keyName := data.name
  match internalReadKey sdk st keyName with
  | .error err => (⟨none, some err⟩, st)
  | .ok key =>
    if !key.Exportable then
      (⟨none, some (.errorf "key is not exportable")⟩, st)
    else
      (⟨some ⟨[("public_key", .str key.PublicKey), ("private_key", .str key.PrivateKey)]⟩,
        none⟩, st)

/-- Handler `sign`. -/
def sign (lib : Atcrypto PrivK PubK) (sdk : Sdk σ V) (st : σ) (data : FieldData)
    (rnd : Entropy) : Result × σ :=
  let keyName := data.name
  let message := data.message
  match internalReadKey sdk st keyName with
  | .error err => (⟨none, some err⟩, st)
  | .ok key =>
    match key.GetPrivateKey lib with
    | .error err => (⟨none, some err⟩, st)
    | .ok privKey =>
      match DecodeString message with
      | .error err => (⟨none, some err⟩, st)
      | .ok messageBytes =>
        match lib.HashAndSign privKey messageBytes rnd with
        | .error err => (⟨none, some err⟩, st)
        | .ok signature =>
          (⟨some ⟨[("signature", .str (EncodeToString signature))]⟩, none⟩, st)

/-- The six callbacks registered by `paths()`. -/
inductive Callback where
  | listKeys
  | createKey
  | deleteKey
  | readKey
  | exportKey
  | sign
deriving DecidableEq, Repr

/-- One request to the backend: the callback that the path and operation
select, the parsed fields, and the randomness available to the call. -/
structure Request where
  callback : Callback
  data : FieldData
  rnd : Entropy

/-- Runs the callback of a request on a storage state. -/
def handle (lib : Atcrypto PrivK PubK) (sdk : Sdk σ V) (st : σ) (req : Request) :
    Result × σ :=
  match req.callback with
  | .listKeys => listKeys sdk st
  | .createKey => createKey lib sdk st req.data req.rnd
  | .deleteKey => deleteKey sdk st req.data
  | .readKey => readKey sdk st req.data
  | .exportKey => exportKey sdk st req.data
  | .sign => sign lib sdk st req.data req.rnd

/-- The storage state after a sequence of requests. -/
def runRequests (lib : Atcrypto PrivK PubK) (sdk : Sdk σ V) (st : σ) :
    List Request → σ
  | [] => st
  | req :: rest => runRequests lib sdk (handle lib sdk st req).2 rest

end Handlers

/-! ## In-memory storage -/

section Inmem

variable {V : Type}

/-- The host storage as an in-memory map: the entries that are stored, at most
the first entry of a path being visible. No call on it fails. -/
abbrev Store (V : Type) := List (StorageEntry V)

/-- Storage `Get`: the entry stored at a path. -/
def Store.get (st : Store V) (path : String) : Option (StorageEntry V) :=
  st.find? fun e => e.Key == path

/-- Storage `Put`: replaces whatever is stored at the path of the entry. -/
def Store.put (st : Store V) (entry : StorageEntry V) : Store V :=
  entry :: st.filter fun e => e.Key != entry.Key

/-- Storage `Delete`: removes whatever is stored at the path. -/
def Store.delete (st : Store V) (path : String) : Store V :=
  st.filter fun e => e.Key != path

/-- The name that a stored path contributes to a listing below a path
prefix: the rest of the path up to and including its first "/", if it has
one. -/
def listName (rest : List Char) : String :=
  match rest.indexOf? '/' with
  | none => ⟨rest⟩
  | some sep => ⟨rest.take (sep + 1)⟩

/-- Storage `List`: the names directly below a path prefix, each once; a
nested path shows as its first segment followed by "/". -/
def Store.list (st : Store V) (pfx : String) : List String :=
  (st.filterMap fun e =>
    if pfx.data.isPrefixOf e.Key.data then some (listName (e.Key.data.drop pfx.length))
    else none).dedup

/-- The SDK over the in-memory storage, for given JSON helpers. -/
def inmem (json : Json V) : Sdk (Store V) V :=
  { json with
    Get := fun st path => .ok (st.get path)
    Put := fun st entry => .ok (st.put entry)
    Delete := fun st path => .ok (st.delete path)
    List := fun st pfx => .ok (st.list pfx) }

end Inmem

/-! ## A small executable instance of the library interface

Used to run the handlers on concrete inputs. Keys are a curve tag and a
32-byte scalar; the text encoding is a tag character followed by hex. -/

namespace Ref

/-- Private key of the instance: the curve (true for secp256k1) and the scalar. -/
structure Priv where
  k256 : Bool
  scalar : Bytes
deriving DecidableEq, Repr

/-- Public key of the instance. -/
structure Pub where
  k256 : Bool
  point : Bytes
deriving DecidableEq, Repr

/-- Import: exactly 32 bytes, not all zero. -/
def parseBytes (k256 : Bool) (b : Bytes) : Except Error Priv :=
  if b.length = 32 ∧ b ≠ List.replicate 32 0 then .ok ⟨k256, b⟩
  else .error (.external "invalid private key")

/-- Generation: the first 32 bytes of the random source. -/
def generate (k256 : Bool) (rnd : Entropy) : Except Error Priv :=
  if 32 ≤ rnd.length then parseBytes k256 (rnd.take 32)
  else .error (.external "entropy source failure")

/-- Text encoding of a private key. -/
def privText (k : Priv) : String :=
  ⟨(if k.k256 then 'k' else 'p') :: (EncodeToString k.scalar).data⟩

/-- Decoding of the text encoding of a private key. -/
def parseText (s : String) : Except Error Priv :=
  match s.data with
  | 'k' :: rest =>
    match hexDecode rest with
    | .ok b => .ok ⟨true, b⟩
    | .error e => .error e
  | 'p' :: rest =>
    match hexDecode rest with
    | .ok b => .ok ⟨false, b⟩
    | .error e => .error e
  | _ => .error (.external "unknown key encoding")

/-- The instance of the `atcrypto` interface. -/
def lib : Atcrypto Priv Pub where
  ParsePrivateBytesK256 := parseBytes true
  ParsePrivateBytesP256 := parseBytes false
  GeneratePrivateKeyK256 := generate true
  GeneratePrivateKeyP256 := generate false
  ParsePrivateMultibase := parseText
  PublicKey := fun k => .ok ⟨k.k256, k.scalar.reverse⟩
  PrivMultibase := privText
  PubMultibase := fun p => ⟨(if p.k256 then 'K' else 'P') :: (EncodeToString p.point).data⟩
  PrivBytes := fun k => k.scalar
  HashAndSign := fun k msg _ => .ok (k.scalar.take 2 ++ msg)

/-- The instance of the JSON helpers: a serialised value is a record, or
`none` for bytes that are not the JSON of a record. -/
def json : Json (Option key) where
  StorageEntryJSON := fun path k => .ok ⟨path, some k⟩
  DecodeJSON := fun e =>
    match e.Value with
    | some k => .ok k
    | none => .error (.external "invalid JSON")

/-- The instance of the SDK: in-memory storage with the JSON helpers above. -/
def sdk : Sdk (Store (Option key)) (Option key) :=
  inmem json

/-- The 32-byte scalar 1, 2, ..., 32. -/
def scalar : Bytes :=
  (List.range 32).map fun i => packNibbles 0 (i + 1)

end Ref

/-! ## Contracts of the external collaborators and derived notions -/

section Contracts

variable {V PrivK PubK : Type}

/-- Contract of the JSON helpers: an entry made by `StorageEntryJSON` carries
the given path and decodes to the record it was made from. -/
def JsonLaw (json : Json V) : Prop :=
  ∀ path k e, json.StorageEntryJSON path k = .ok e →
    e.Key = path ∧ json.DecodeJSON e = .ok k

/-- Contract of the key codec: the text encoding of a private key parses back
to a key with the same raw bytes, and an imported key has the raw bytes it
was imported from. -/
structure CodecLaw (lib : Atcrypto PrivK PubK) : Prop where
  multibase : ∀ k, ∃ k2, lib.ParsePrivateMultibase (lib.PrivMultibase k) = .ok k2 ∧
    lib.PrivBytes k2 = lib.PrivBytes k
  bytesK256 : ∀ b k, lib.ParsePrivateBytesK256 b = .ok k → lib.PrivBytes k = b
  bytesP256 : ∀ b k, lib.ParsePrivateBytesP256 b = .ok k → lib.PrivBytes k = b

/-- A private key of one of the two supported algorithms: a key returned by
the import or by the generation of secp256k1 or of P-256. -/
def Supported (lib : Atcrypto PrivK PubK) (k : PrivK) : Prop :=
  (∃ b, lib.ParsePrivateBytesK256 b = .ok k) ∨ (∃ b, lib.ParsePrivateBytesP256 b = .ok k) ∨
  (∃ r, lib.GeneratePrivateKeyK256 r = .ok k) ∨ (∃ r, lib.GeneratePrivateKeyP256 r = .ok k)

/-- The key-pair invariant of one stored entry: it decodes to a record whose
`private_key` is the encoding of a supported private key and whose
`public_key` is the encoding of the public key derived from that key. -/
def RecordInv (lib : Atcrypto PrivK PubK) (json : Json V) (e : StorageEntry V) : Prop :=
  ∃ k pub rec, Supported lib k ∧ lib.PublicKey k = .ok pub ∧ json.DecodeJSON e = .ok rec ∧
    rec.PrivateKey = lib.PrivMultibase k ∧ rec.PublicKey = lib.PubMultibase pub

/-- The key-pair invariant of a store: every stored entry satisfies it. -/
def StoreInv (lib : Atcrypto PrivK PubK) (json : Json V) (st : Store V) : Prop :=
  ∀ e ∈ st, RecordInv lib json e

/-- The names that a list response carries under `keys`. -/
def listedNames (r : Response) : List String :=
  match r.get "keys" with
  | some (.strs l) => l
  | _ => []

end Contracts

/-! ## Lemmas on encoding/hex -/

set_option maxRecDepth 1000000 in
theorem hexByte_roundtrip : ∀ v : Byte,
    reverseHexTable (hextable.getD (v.val >>> 4) '0') ≤ 0x0f ∧
    reverseHexTable (hextable.getD (v.val &&& 0x0f) '0') ≤ 0x0f ∧
    packNibbles (reverseHexTable (hextable.getD (v.val >>> 4) '0'))
      (reverseHexTable (hextable.getD (v.val &&& 0x0f) '0')) = v := by decide

theorem hexDecode_encode (bs : Bytes) : hexDecode (bs.flatMap hexEncodeByte) = .ok bs := by
  induction bs with
  | nil => rfl
  | cons v bs ih =>
    obtain ⟨h1, h2, h3⟩ := hexByte_roundtrip v
    have h1' : ¬ reverseHexTable (hextable.getD (v.val >>> 4) '0') > 0x0f := Nat.not_lt.mpr h1
    have h2' : ¬ reverseHexTable (hextable.getD (v.val &&& 0x0f) '0') > 0x0f := Nat.not_lt.mpr h2
    simp only [List.flatMap_cons, hexEncodeByte, List.cons_append, List.nil_append] at ih ⊢
    simp only [hexDecode, h1', h2', if_false, ih, h3]

theorem DecodeString_EncodeToString (bs : Bytes) :
    DecodeString (EncodeToString bs) = .ok bs :=
  hexDecode_encode bs

theorem hexDecode_pair (p q : Char) (rest : List Char) :
    hexDecode (p :: q :: rest) =
      if reverseHexTable p > 0x0f then .error (.hexInvalidByte p)
      else if reverseHexTable q > 0x0f then .error (.hexInvalidByte q)
      else
        match hexDecode rest with
        | .ok bs => .ok (packNibbles (reverseHexTable p) (reverseHexTable q) :: bs)
        | .error e => .error e := by
  simp only [hexDecode]

theorem hexDecode_ok_iff_aux (cs : List Char) :
    ((∃ bs, hexDecode cs = .ok bs) ↔
      cs.length % 2 = 0 ∧ ∀ c ∈ cs, reverseHexTable c ≤ 0x0f) ∧
    ∀ d, ((∃ bs, hexDecode (d :: cs) = .ok bs) ↔
      (d :: cs).length % 2 = 0 ∧ ∀ c ∈ d :: cs, reverseHexTable c ≤ 0x0f) := by
  induction cs with
  | nil =>
    refine ⟨by simp [hexDecode], fun d => ?_⟩
    simp only [hexDecode]
    split <;> simp
  | cons q rest ih =>
    refine ⟨ih.2 q, fun p => ?_⟩
    rw [hexDecode_pair]
    have h := ih.1
    by_cases hp : reverseHexTable p > 0x0f
    · simp only [hp, if_true]
      simp
      intro _ h1
      omega
    · by_cases hq : reverseHexTable q > 0x0f
      · simp only [hp, hq, if_true, if_false]
        simp
        intro _ _ h1
        omega
      · simp only [hp, hq, if_false]
        have e1 : (p :: q :: rest).length % 2 = rest.length % 2 := by
          simp only [List.length_cons]; omega
        rw [e1]
        cases hd : hexDecode rest with
        | error e =>
          rw [hd] at h
          simp at h
          simp
          intro h0 _ _
          exact h h0
        | ok bs =>
          rw [hd] at h
          simp at h
          simp
          refine ⟨h.1, by omega, by omega, h.2⟩

theorem hexDecode_length_aux (cs : List Char) :
    (∀ bs, hexDecode cs = .ok bs → bs.length * 2 = cs.length) ∧
    ∀ d bs, hexDecode (d :: cs) = .ok bs → bs.length * 2 = (d :: cs).length := by
  induction cs with
  | nil =>
    refine ⟨by simp [hexDecode], fun d bs => ?_⟩
    simp only [hexDecode]
    split <;> simp
  | cons q rest ih =>
    refine ⟨ih.2 q, fun p bs => ?_⟩
    rw [hexDecode_pair]
    split
    · simp
    · split
      · simp
      · cases hd : hexDecode rest with
        | error e => simp
        | ok bs0 =>
          have := ih.1 bs0 hd
          simp only [Except.ok.injEq]
          intro h
          subst h
          simp only [List.length_cons]
          omega

/-- A string decodes as hex exactly when its length is even and every
character is a hex digit. -/
theorem DecodeString_ok_iff (s : String) :
    (∃ bs, DecodeString s = .ok bs) ↔
      s.length % 2 = 0 ∧ ∀ c ∈ s.data, reverseHexTable c ≤ 0x0f :=
  (hexDecode_ok_iff_aux s.data).1

/-- A decoded string has two characters for each byte. -/
theorem DecodeString_length (s : String) (bs : Bytes) (h : DecodeString s = .ok bs) :
    bs.length * 2 = s.length :=
  (hexDecode_length_aux s.data).1 bs h

/-- Every character that `EncodeToString` writes is a lower-case hex digit. -/
theorem EncodeToString_lowercase (bs : Bytes) :
    ∀ c ∈ (EncodeToString bs).data, c ∈ hextable := by
  intro c hc
  simp only [EncodeToString, List.mem_flatMap, hexEncodeByte, List.mem_cons,
    List.mem_singleton, List.not_mem_nil, or_false] at hc
  obtain ⟨v, _, hv⟩ := hc
  have key : ∀ n : Fin 16, hextable.getD n.val '0' ∈ hextable := by decide
  have hlt1 : v.val >>> 4 < 16 := by
    have := v.isLt
    rw [Nat.shiftRight_eq_div_pow]
    omega
  have hlt2 : v.val &&& 0x0f < 16 := by
    have : v.val &&& 0x0f ≤ 0x0f := Nat.and_le_right
    omega
  rcases hv with hv | hv
  · rw [hv]; exact key ⟨_, hlt1⟩
  · rw [hv]; exact key ⟨_, hlt2⟩

/-! ## Lemmas on the handlers -/

section HandlerLemmas

variable {σ V PrivK PubK : Type}

theorem internalReadKey_none (sdk : Sdk σ V) (st : σ) (name : String)
    (h : sdk.Get st ("keys/" ++ name) = .ok none) :
    internalReadKey sdk st name = .error (.errorf "key not found") := by
  simp only [internalReadKey, h]

theorem internalReadKey_some (sdk : Sdk σ V) (st : σ) (name : String)
    (e : StorageEntry V) (h : sdk.Get st ("keys/" ++ name) = .ok (some e)) :
    internalReadKey sdk st name = sdk.DecodeJSON e := by
  simp only [internalReadKey, h]
  cases sdk.DecodeJSON e <;> rfl

theorem internalReadKey_ok_iff (sdk : Sdk σ V) (st : σ) (name : String) (k : key) :
    internalReadKey sdk st name = .ok k ↔
      ∃ e, sdk.Get st ("keys/" ++ name) = .ok (some e) ∧ sdk.DecodeJSON e = .ok k := by
  cases hg : sdk.Get st ("keys/" ++ name) with
  | error err => simp [internalReadKey, hg]
  | ok o =>
    cases o with
    | none => simp [internalReadKey, hg]
    | some e => simp [internalReadKey_some sdk st name e hg]

/-- Shape of a `createKey` result: an error without response and without
change of state, or the single field `public_key`. -/
theorem createKey_shape (lib : Atcrypto PrivK PubK) (sdk : Sdk σ V) (st : σ)
    (data : FieldData) (rnd : Entropy) :
    (∃ err, createKey lib sdk st data rnd = (⟨none, some err⟩, st)) ∨
    (∃ p st', createKey lib sdk st data rnd =
      (⟨some ⟨[("public_key", .str p)]⟩, none⟩, st')) := by
  unfold createKey
  dsimp only
  split
  · exact Or.inl ⟨_, rfl⟩
  · split
    · exact Or.inl ⟨_, rfl⟩
    · split
      · exact Or.inl ⟨_, rfl⟩
      · split
        · exact Or.inl ⟨_, rfl⟩
        · exact Or.inr ⟨_, _, rfl⟩

/-- Shape of a `readKey` result. -/
theorem readKey_shape (sdk : Sdk σ V) (st : σ) (data : FieldData) :
    (∃ err, readKey sdk st data = (⟨none, some err⟩, st)) ∨
    (∃ k, internalReadKey sdk st data.name = .ok k ∧ readKey sdk st data =
      (⟨some ⟨[("exportable", .bool k.Exportable), ("public_key", .str k.PublicKey)]⟩,
        none⟩, st)) := by
  unfold readKey
  dsimp only
  split
  · exact Or.inl ⟨_, rfl⟩
  · next k hk => exact Or.inr ⟨k, hk, rfl⟩

/-- Shape of an `exportKey` result. -/
theorem exportKey_shape (sdk : Sdk σ V) (st : σ) (data : FieldData) :
    (∃ err, exportKey sdk st data = (⟨none, some err⟩, st)) ∨
    (∃ k, internalReadKey sdk st data.name = .ok k ∧ k.Exportable = true ∧
      exportKey sdk st data =
        (⟨some ⟨[("public_key", .str k.PublicKey), ("private_key", .str k.PrivateKey)]⟩,
          none⟩, st)) := by
  unfold exportKey
  dsimp only
  split
  · exact Or.inl ⟨_, rfl⟩
  · next k hk =>
    cases hx : k.Exportable with
    | false => exact Or.inl ⟨.errorf "key is not exportable", by simp⟩
    | true => exact Or.inr ⟨k, hk, hx, by simp [hx]⟩

/-- Shape of a `sign` result. -/
theorem sign_shape (lib : Atcrypto PrivK PubK) (sdk : Sdk σ V) (st : σ)
    (data : FieldData) (rnd : Entropy) :
    (∃ err, sign lib sdk st data rnd = (⟨none, some err⟩, st)) ∨
    (∃ sig, sign lib sdk st data rnd =
      (⟨some ⟨[("signature", .str (EncodeToString sig))]⟩, none⟩, st)) := by
  unfold sign
  dsimp only
  split
  · exact Or.inl ⟨_, rfl⟩
  · split
    · exact Or.inl ⟨_, rfl⟩
    · split
      · exact Or.inl ⟨_, rfl⟩
      · split
        · exact Or.inl ⟨_, rfl⟩
        · exact Or.inr ⟨_, rfl⟩

/-- Shape of a `listKeys` result. -/
theorem listKeys_shape (sdk : Sdk σ V) (st : σ) :
    (∃ err, listKeys sdk st = (⟨none, some err⟩, st)) ∨
    (∃ names, listKeys sdk st = (⟨some (ListResponse names), none⟩, st)) := by
  unfold listKeys
  split
  · exact Or.inl ⟨_, rfl⟩
  · exact Or.inr ⟨_, rfl⟩

/-- Shape of a `deleteKey` result: never a response. -/
theorem deleteKey_shape (sdk : Sdk σ V) (st : σ) (data : FieldData) :
    (deleteKey sdk st data).1.resp = none := by
  unfold deleteKey
  dsimp only
  split <;> rfl

theorem ListResponse_data (names : List String) :
    (ListResponse names).Data = [] ∨ (ListResponse names).Data = [("keys", .strs names)] := by
  unfold ListResponse
  split
  · exact Or.inr rfl
  · exact Or.inl rfl

/-- The private-key block of `createKey` when the algorithm is not supported:
hex decoding and the length check of a non-empty `privateKey` come first. -/
theorem createKey_privKey_unsupported (lib : Atcrypto PrivK PubK) (keyInput algorithm : String)
    (rnd : Entropy) (h1 : algorithm ≠ "secp256k1") (h2 : algorithm ≠ "p256") :
    createKey.privKey lib keyInput algorithm rnd =
      .error
        (if keyInput = "" then .errorf ("unsupported algorithm: " ++ algorithm)
        else
          match DecodeString keyInput with
          | .error err => err
          | .ok keyBytes =>
            if keyBytes.length = 32 then .errorf ("unsupported algorithm: " ++ algorithm)
            else .errorf ("invalid private key length: " ++ toString keyBytes.length)) := by
  unfold createKey.privKey
  by_cases hk : keyInput = ""
  · simp [hk, h1, h2]
  · simp only [bne_iff_ne, ne_eq, hk, not_false_eq_true, if_true, if_false, h1, h2]
    cases DecodeString keyInput with
    | error err => rfl
    | ok keyBytes =>
      by_cases hl : keyBytes.length = 32
      · simp [hl]
      · simp [hl]

/-- The private-key block of `createKey` on a non-empty `privateKey` that is
not the hex of 32 bytes. -/
theorem createKey_privKey_bad (lib : Atcrypto PrivK PubK) (keyInput algorithm : String)
    (rnd : Entropy) (hne : keyInput ≠ "")
    (hbad : ∀ bs, DecodeString keyInput = .ok bs → bs.length ≠ 32) :
    createKey.privKey lib keyInput algorithm rnd =
      .error
        (match DecodeString keyInput with
          | .error err => err
          | .ok keyBytes => .errorf ("invalid private key length: " ++ toString keyBytes.length)) := by
  unfold createKey.privKey
  simp only [bne_iff_ne, ne_eq, hne, not_false_eq_true, if_true]
  cases hd : DecodeString keyInput with
  | error err => rfl
  | ok keyBytes =>
    have := hbad keyBytes hd
    simp [this]

/-- When its private-key block fails, `createKey` fails with the same error,
returns no response and keeps the storage state. -/
theorem createKey_of_privKey_error (lib : Atcrypto PrivK PubK) (sdk : Sdk σ V) (st : σ)
    (data : FieldData) (rnd : Entropy) (err : Error)
    (h : createKey.privKey lib data.privateKey data.algorithm rnd = .error err) :
    createKey lib sdk st data rnd = (⟨none, some err⟩, st) := by
  unfold createKey
  simp only [h]

/-- A successful `createKey` went through every step: a private key, its
public key, the serialised record and the `Put`. -/
theorem createKey_ok (lib : Atcrypto PrivK PubK) (sdk : Sdk σ V) (st : σ)
    (data : FieldData) (rnd : Entropy)
    (h : (createKey lib sdk st data rnd).1.err = none) :
    ∃ privKey pubKey entry st',
      createKey.privKey lib data.privateKey data.algorithm rnd = .ok privKey ∧
      lib.PublicKey privKey = .ok pubKey ∧
      sdk.StorageEntryJSON ("keys/" ++ data.name)
        ⟨data.exportable, lib.PrivMultibase privKey, lib.PubMultibase pubKey⟩ = .ok entry ∧
      sdk.Put st entry = .ok st' ∧
      createKey lib sdk st data rnd =
        (⟨some ⟨[("public_key", .str (lib.PubMultibase pubKey))]⟩, none⟩, st') := by
  unfold createKey at h ⊢
  dsimp only at h ⊢
  cases h1 : createKey.privKey lib data.privateKey data.algorithm rnd with
  | error err => rw [h1] at h; cases h
  | ok privKey =>
    rw [h1] at h
    dsimp only at h ⊢
    cases h2 : lib.PublicKey privKey with
    | error err => rw [h2] at h; cases h
    | ok pubKey =>
      rw [h2] at h
      dsimp only at h ⊢
      cases h3 : sdk.StorageEntryJSON ("keys/" ++ data.name)
          ⟨data.exportable, lib.PrivMultibase privKey, lib.PubMultibase pubKey⟩ with
      | error err => rw [h3] at h; cases h
      | ok entry =>
        rw [h3] at h
        dsimp only at h ⊢
        cases h4 : sdk.Put st entry with
        | error err => rw [h4] at h; cases h
        | ok st' => exact ⟨privKey, pubKey, entry, st', rfl, h2, h3, h4, rfl⟩

/-- A key that the private-key block of `createKey` returns is a supported
key. -/
theorem createKey_privKey_supported (lib : Atcrypto PrivK PubK) (keyInput algorithm : String)
    (rnd : Entropy) (k : PrivK) (h : createKey.privKey lib keyInput algorithm rnd = .ok k) :
    Supported lib k := by
  unfold createKey.privKey at h
  split at h
  · split at h
    · cases h
    · split at h
      · cases h
      · split at h
        · split at h
          · cases h
          · next pk hpk => cases h; exact Or.inl ⟨_, hpk⟩
        · split at h
          · split at h
            · cases h
            · next pk hpk => cases h; exact Or.inr (Or.inl ⟨_, hpk⟩)
          · cases h
  · split at h
    · split at h
      · cases h
      · next pk hpk => cases h; exact Or.inr (Or.inr (Or.inl ⟨rnd, hpk⟩))
    · split at h
      · split at h
        · cases h
        · next pk hpk => cases h; exact Or.inr (Or.inr (Or.inr ⟨rnd, hpk⟩))
      · cases h

/-- The private-key block of `createKey` on the hex of 32 bytes: the import of
the selected algorithm applied to those bytes. -/
theorem createKey_privKey_import (lib : Atcrypto PrivK PubK) (algorithm : String)
    (rnd : Entropy) (s : Bytes) (hlen : s.length = 32) (k : PrivK)
    (h : createKey.privKey lib (EncodeToString s) algorithm rnd = .ok k) :
    (algorithm = "secp256k1" ∧ lib.ParsePrivateBytesK256 s = .ok k) ∨
    (algorithm = "p256" ∧ lib.ParsePrivateBytesP256 s = .ok k) := by
  have hne : (EncodeToString s != "") = true := by
    cases s with
    | nil => simp at hlen
    | cons v t => simp [EncodeToString, hexEncodeByte, bne_iff_ne, String.ext_iff]
  unfold createKey.privKey at h
  rw [if_pos hne, DecodeString_EncodeToString] at h
  simp only [hlen, bne_self_eq_false, Bool.false_eq_true, if_false] at h
  split at h
  · next ha =>
    left
    refine ⟨ha, ?_⟩
    cases hp : lib.ParsePrivateBytesK256 s with
    | error err => rw [hp] at h; cases h
    | ok pk => rw [hp] at h; exact h
  · split at h
    · next _ ha =>
      right
      refine ⟨ha, ?_⟩
      cases hp : lib.ParsePrivateBytesP256 s with
      | error err => rw [hp] at h; cases h
      | ok pk => rw [hp] at h; exact h
    · cases h

end HandlerLemmas

/-! ## Lemmas on the in-memory storage -/

section StoreLemmas

variable {V : Type}

theorem Store.get_put (st : Store V) (entry : StorageEntry V) :
    (st.put entry).get entry.Key = some entry := by
  simp [Store.get, Store.put]

theorem Store.get_delete (st : Store V) (path : String) :
    (st.delete path).get path = none := by
  simp [Store.get, Store.delete, List.find?_eq_none]

theorem Store.delete_of_get_none (st : Store V) (path : String) (h : st.get path = none) :
    st.delete path = st := by
  simp only [Store.get, List.find?_eq_none] at h
  simp only [Store.delete, List.filter_eq_self]
  intro e he
  have := h e he
  simpa [bne_iff_ne] using this

theorem Store.delete_delete (st : Store V) (path : String) :
    (st.delete path).delete path = st.delete path := by
  simp [Store.delete, List.filter_filter]

theorem Store.mem_put (st : Store V) (entry e : StorageEntry V) (h : e ∈ st.put entry) :
    e = entry ∨ (e ∈ st ∧ e.Key ≠ entry.Key) := by
  simp only [Store.put, List.mem_cons, List.mem_filter, bne_iff_ne] at h
  exact h

theorem Store.mem_delete (st : Store V) (path : String) (e : StorageEntry V)
    (h : e ∈ st.delete path) : e ∈ st ∧ e.Key ≠ path := by
  simp only [Store.delete, List.mem_filter, bne_iff_ne] at h
  exact h

/-- Listing `keys/` in a store of the three paths `keys/c`, `keys/b`,
`keys/a`. -/
theorem Store.list_abc (va vb vc : V) :
    Store.list ([⟨"keys/c", vc⟩, ⟨"keys/b", vb⟩, ⟨"keys/a", va⟩] : Store V) "keys/" =
      ["c", "b", "a"] := by
  rfl

theorem HasSuffix_slash_iff (s : String) :
    HasSuffix s "/" = true ↔ ∃ t : String, s = t ++ "/" := by
  unfold HasSuffix
  rw [List.isSuffixOf_iff_suffix]
  constructor
  · rintro ⟨t, ht⟩
    exact ⟨⟨t⟩, String.ext_iff.2 (by rw [String.data_append]; exact ht.symm)⟩
  · rintro ⟨t, ht⟩
    exact ⟨t.data, by rw [ht, String.data_append]⟩

theorem listedNames_ListResponse (names : List String) :
    listedNames (ListResponse names) = names := by
  cases names with
  | nil => rfl
  | cons n t => simp [ListResponse, listedNames, Response.get]

/-- The instance of the JSON helpers satisfies their contract. -/
theorem Ref.json_law : JsonLaw Ref.json := by
  intro path k e h
  simp only [Ref.json, Except.ok.injEq] at h
  subst h
  exact ⟨rfl, rfl⟩

/-- The instance of the key codec satisfies its contract. -/
theorem Ref.codec_law : CodecLaw Ref.lib := by
  refine ⟨?_, ?_, ?_⟩
  · intro k
    refine ⟨k, ?_, rfl⟩
    obtain ⟨c, b⟩ := k
    cases c <;>
      simp [Ref.lib, Ref.privText, Ref.parseText, EncodeToString, hexDecode_encode]
  · intro b k h
    simp only [Ref.lib, Ref.parseBytes] at h
    split at h
    · cases h; rfl
    · cases h
  · intro b k h
    simp only [Ref.lib, Ref.parseBytes] at h
    split at h
    · cases h; rfl
    · cases h

/-- The result of a successful `createKey` on the in-memory storage. -/
theorem createKey_inmem_ok {PrivK PubK : Type} (lib : Atcrypto PrivK PubK)
    (json : Json V) (hjson : JsonLaw json) (st : Store V) (data : FieldData) (rnd : Entropy)
    (hok : (createKey lib (inmem json) st data rnd).1.err = none) :
    ∃ p entry,
      createKey lib (inmem json) st data rnd =
        (⟨some ⟨[("public_key", .str p)]⟩, none⟩,
          entry :: st.filter fun e => e.Key != "keys/" ++ data.name) ∧
      entry.Key = "keys/" ++ data.name ∧ RecordInv lib json entry := by
  obtain ⟨privKey, pubKey, entry, st1, h1, h2, h3, h4, h5⟩ :=
    createKey_ok lib (inmem json) st data rnd hok
  have h3j : json.StorageEntryJSON ("keys/" ++ data.name)
      ⟨data.exportable, lib.PrivMultibase privKey, lib.PubMultibase pubKey⟩ = .ok entry := h3
  obtain ⟨hkey, hdec⟩ := hjson _ _ _ h3j
  have hst : st1 = st.put entry := (Except.ok.inj h4).symm
  subst hst
  refine ⟨lib.PubMultibase pubKey, entry, by rw [h5, Store.put, hkey], hkey, ?_⟩
  exact ⟨privKey, pubKey, _, createKey_privKey_supported lib _ _ rnd privKey h1, h2, hdec,
    rfl, rfl⟩

end StoreLemmas

/-! ## The claims -/

section Claims

variable {σ V PrivK PubK : Type}

/-- C1: `exportKey` fails with "key not found" when no entry is stored at
`keys/<name>`; fails with "key is not exportable", without a response, when
the stored record has `exportable = false`; returns exactly the stored
`public_key` and `private_key` when it has `exportable = true`; and so
succeeds if and only if a record exists and its flag is true. The storage
state is the same after the call. -/
theorem exportKey_gate (sdk : Sdk σ V) (st : σ) (data : FieldData) :
    (sdk.Get st ("keys/" ++ data.name) = .ok none →
      exportKey sdk st data = (⟨none, some (.errorf "key not found")⟩, st)) ∧
    (∀ e k, sdk.Get st ("keys/" ++ data.name) = .ok (some e) → sdk.DecodeJSON e = .ok k →
      k.Exportable = false →
      exportKey sdk st data = (⟨none, some (.errorf "key is not exportable")⟩, st)) ∧
    (∀ e k, sdk.Get st ("keys/" ++ data.name) = .ok (some e) → sdk.DecodeJSON e = .ok k →
      k.Exportable = true →
      exportKey sdk st data =
        (⟨some ⟨[("public_key", .str k.PublicKey), ("private_key", .str k.PrivateKey)]⟩,
          none⟩, st)) ∧
    ((exportKey sdk st data).1.err = none ↔
      ∃ e k, sdk.Get st ("keys/" ++ data.name) = .ok (some e) ∧ sdk.DecodeJSON e = .ok k ∧
        k.Exportable = true) := by
  refine ⟨?_, ?_, ?_, ?_⟩
  · intro h
    simp only [exportKey, internalReadKey_none sdk st data.name h]
  · intro e k hg hd hx
    simp [exportKey, internalReadKey_some sdk st data.name e hg, hd, hx]
  · intro e k hg hd hx
    simp [exportKey, internalReadKey_some sdk st data.name e hg, hd, hx]
  · cases hr : internalReadKey sdk st data.name with
    | error err =>
      simp only [exportKey, hr]
      constructor
      · intro h; cases h
      · rintro ⟨e, k, hg, hd, _⟩
        have := (internalReadKey_ok_iff sdk st data.name k).2 ⟨e, hg, hd⟩
        rw [hr] at this
        cases this
    | ok k =>
      obtain ⟨e, hg, hd⟩ := (internalReadKey_ok_iff sdk st data.name k).1 hr
      cases hx : k.Exportable with
      | false =>
        simp only [exportKey, hr, hx]
        constructor
        · intro h; cases h
        · rintro ⟨e2, k2, hg2, hd2, hx2⟩
          rw [hg] at hg2
          cases hg2
          rw [hd] at hd2
          cases hd2
          rw [hx] at hx2
          cases hx2
      | true =>
        simp only [exportKey, hr, hx]
        exact ⟨fun _ => ⟨e, k, hg, hd, hx⟩, fun _ => rfl⟩

/-- Witness for C1: on the in-memory storage, an absent name, a record that
is not exportable and a record that is. -/
theorem exportKey_gate_witness :
    exportKey Ref.sdk [] ⟨"a", "", false, "", ""⟩ =
      (⟨none, some (.errorf "key not found")⟩, []) ∧
    exportKey Ref.sdk [⟨"keys/a", some ⟨false, "k01", "K01"⟩⟩] ⟨"a", "", false, "", ""⟩ =
      (⟨none, some (.errorf "key is not exportable")⟩,
        [⟨"keys/a", some ⟨false, "k01", "K01"⟩⟩]) ∧
    exportKey Ref.sdk [⟨"keys/a", some ⟨true, "k01", "K01"⟩⟩] ⟨"a", "", false, "", ""⟩ =
      (⟨some ⟨[("public_key", .str "K01"), ("private_key", .str "k01")]⟩, none⟩,
        [⟨"keys/a", some ⟨true, "k01", "K01"⟩⟩]) :=
  ⟨(exportKey_gate Ref.sdk [] ⟨"a", "", false, "", ""⟩).1 rfl,
    (exportKey_gate Ref.sdk [⟨"keys/a", some ⟨false, "k01", "K01"⟩⟩]
      ⟨"a", "", false, "", ""⟩).2.1 _ _ rfl rfl rfl,
    (exportKey_gate Ref.sdk [⟨"keys/a", some ⟨true, "k01", "K01"⟩⟩]
      ⟨"a", "", false, "", ""⟩).2.2.1 _ _ rfl rfl rfl⟩

/-- C2: a failing call returns no response; a successful `createKey` response
has exactly the field `public_key`, `readKey` exactly `exportable` and
`public_key`, `sign` exactly `signature`, `listKeys` nothing but the list of
names under `keys`, `deleteKey` returns no response at all; and a response
with a field `private_key` comes only from `exportKey` on a stored record
whose `exportable` flag is true. -/
theorem private_key_only_from_export (lib : Atcrypto PrivK PubK) (sdk : Sdk σ V) (st : σ)
    (req : Request) :
    ((handle lib sdk st req).1.err ≠ none → (handle lib sdk st req).1.resp = none) ∧
    (∀ resp, (handle lib sdk st req).1.resp = some resp →
      (handle lib sdk st req).1.err = none ∧
      match req.callback with
      | .createKey => resp.fields = ["public_key"]
      | .readKey => resp.fields = ["exportable", "public_key"]
      | .sign => resp.fields = ["signature"]
      | .listKeys => resp.Data = [] ∨ ∃ names, resp.Data = [("keys", .strs names)]
      | .deleteKey => False
      | .exportKey => resp.fields = ["public_key", "private_key"]) ∧
    (∀ resp, (handle lib sdk st req).1.resp = some resp → "private_key" ∈ resp.fields →
      req.callback = .exportKey ∧
      ∃ e k, sdk.Get st ("keys/" ++ req.data.name) = .ok (some e) ∧
        sdk.DecodeJSON e = .ok k ∧ k.Exportable = true ∧
        resp.get "private_key" = some (.str k.PrivateKey)) := by
  obtain ⟨cb, data, rnd⟩ := req
  cases cb with
  | listKeys =>
    simp only [handle]
    rcases listKeys_shape sdk st with ⟨err, h⟩ | ⟨names, h⟩
    · simp [h]
    · rw [h]
      rcases ListResponse_data names with hd | hd
      · refine ⟨by simp, ?_, ?_⟩
        · intro resp hr
          simp only [Option.some.injEq] at hr
          subst hr
          exact ⟨rfl, Or.inl hd⟩
        · intro resp hr hm
          simp only [Option.some.injEq] at hr
          subst hr
          simp [Response.fields, hd] at hm
      · refine ⟨by simp, ?_, ?_⟩
        · intro resp hr
          simp only [Option.some.injEq] at hr
          subst hr
          exact ⟨rfl, Or.inr ⟨names, hd⟩⟩
        · intro resp hr hm
          simp only [Option.some.injEq] at hr
          subst hr
          simp [Response.fields, hd] at hm
  | createKey =>
    simp only [handle]
    rcases createKey_shape lib sdk st data rnd with ⟨err, h⟩ | ⟨p, st1, h⟩
    · simp [h]
    · rw [h]
      refine ⟨by simp, ?_, ?_⟩
      · intro resp hr
        simp only [Option.some.injEq] at hr
        subst hr
        exact ⟨rfl, rfl⟩
      · intro resp hr hm
        simp only [Option.some.injEq] at hr
        subst hr
        simp [Response.fields] at hm
  | deleteKey =>
    simp only [handle]
    have h := deleteKey_shape sdk st data
    simp [h]
  | readKey =>
    simp only [handle]
    rcases readKey_shape sdk st data with ⟨err, h⟩ | ⟨k, _, h⟩
    · simp [h]
    · rw [h]
      refine ⟨by simp, ?_, ?_⟩
      · intro resp hr
        simp only [Option.some.injEq] at hr
        subst hr
        exact ⟨rfl, rfl⟩
      · intro resp hr hm
        simp only [Option.some.injEq] at hr
        subst hr
        simp [Response.fields] at hm
  | exportKey =>
    simp only [handle]
    rcases exportKey_shape sdk st data with ⟨err, h⟩ | ⟨k, hk, hx, h⟩
    · simp [h]
    · rw [h]
      obtain ⟨e, hg, hd⟩ := (internalReadKey_ok_iff sdk st data.name k).1 hk
      refine ⟨by simp, ?_, ?_⟩
      · intro resp hr
        simp only [Option.some.injEq] at hr
        subst hr
        exact ⟨rfl, rfl⟩
      · intro resp hr _
        simp only [Option.some.injEq] at hr
        subst hr
        exact ⟨trivial, e, k, hg, hd, hx, by simp [Response.get]⟩
  | sign =>
    simp only [handle]
    rcases sign_shape lib sdk st data rnd with ⟨err, h⟩ | ⟨sig, h⟩
    · simp [h]
    · rw [h]
      refine ⟨by simp, ?_, ?_⟩
      · intro resp hr
        simp only [Option.some.injEq] at hr
        subst hr
        exact ⟨rfl, rfl⟩
      · intro resp hr hm
        simp only [Option.some.injEq] at hr
        subst hr
        simp [Response.fields] at hm

/-- Witness for C2: an export of an exportable record on the in-memory
storage. -/
theorem private_key_only_from_export_witness :
    (handle Ref.lib Ref.sdk [⟨"keys/a", some ⟨true, "k01", "K01"⟩⟩]
      ⟨.exportKey, ⟨"a", "", false, "", ""⟩, []⟩).1.resp =
      some ⟨[("public_key", .str "K01"), ("private_key", .str "k01")]⟩ ∧
    ((⟨.exportKey, ⟨"a", "", false, "", ""⟩, []⟩ : Request).callback = .exportKey ∧
      ∃ e k, Ref.sdk.Get [⟨"keys/a", some ⟨true, "k01", "K01"⟩⟩]
          ("keys/" ++ (⟨.exportKey, ⟨"a", "", false, "", ""⟩, []⟩ : Request).data.name) =
          .ok (some e) ∧
        Ref.sdk.DecodeJSON e = .ok k ∧ k.Exportable = true ∧
        (⟨[("public_key", .str "K01"), ("private_key", .str "k01")]⟩ : Response).get
          "private_key" = some (.str k.PrivateKey)) :=
  ⟨rfl,
    (private_key_only_from_export Ref.lib Ref.sdk [⟨"keys/a", some ⟨true, "k01", "K01"⟩⟩]
      ⟨.exportKey, ⟨"a", "", false, "", ""⟩, []⟩).2.2 _ rfl (by decide)⟩

/-- Counterexample to C3 as stated: with the unsupported algorithm "ed25519",
a `privateKey` that is not hex fails with the hex error, and one of a single
byte fails with the length error; neither is the unsupported-algorithm
error. -/
theorem createKey_algorithm_checked_after_hex :
    ("ed25519" ≠ "secp256k1" ∧ "ed25519" ≠ "p256") ∧
    createKey Ref.lib Ref.sdk [] ⟨"a", "zz", false, "ed25519", ""⟩ [] =
      (⟨none, some (.hexInvalidByte 'z')⟩, []) ∧
    createKey Ref.lib Ref.sdk [] ⟨"a", "00", false, "ed25519", ""⟩ [] =
      (⟨none, some (.errorf "invalid private key length: 1")⟩, []) ∧
    (createKey Ref.lib Ref.sdk [] ⟨"a", "zz", false, "ed25519", ""⟩ []).1.err ≠
      some (.errorf "unsupported algorithm: ed25519") ∧
    (createKey Ref.lib Ref.sdk [] ⟨"a", "00", false, "ed25519", ""⟩ []).1.err ≠
      some (.errorf "unsupported algorithm: ed25519") := by
  decide

/-- C3, amended: for an algorithm that is neither "secp256k1" nor "p256",
`createKey` fails, returns no response and leaves the storage state as it
was, whatever the library and the storage are. The error is "unsupported
algorithm: <algorithm>" when `privateKey` is empty or is the hex of exactly
32 bytes; a non-empty `privateKey` that is not hex gives the hex error and one
that decodes to n bytes, n not 32, gives "invalid private key length: n". -/
theorem createKey_unsupported_algorithm (lib : Atcrypto PrivK PubK) (sdk : Sdk σ V) (st : σ)
    (data : FieldData) (rnd : Entropy)
    (h1 : data.algorithm ≠ "secp256k1") (h2 : data.algorithm ≠ "p256") :
    createKey lib sdk st data rnd =
      (⟨none, some
        (if data.privateKey = "" then .errorf ("unsupported algorithm: " ++ data.algorithm)
        else
          match DecodeString data.privateKey with
          | .error err => err
          | .ok keyBytes =>
            if keyBytes.length = 32 then
              .errorf ("unsupported algorithm: " ++ data.algorithm)
            else .errorf ("invalid private key length: " ++ toString keyBytes.length))⟩,
        st) :=
  createKey_of_privKey_error lib sdk st data rnd _
    (createKey_privKey_unsupported lib data.privateKey data.algorithm rnd h1 h2)

/-- Witness for C3, amended: the unsupported algorithm "ed25519" with an empty
`privateKey`. -/
theorem createKey_unsupported_algorithm_witness :
    createKey Ref.lib Ref.sdk [] ⟨"a", "", false, "ed25519", ""⟩ [] =
      (⟨none, some (.errorf "unsupported algorithm: ed25519")⟩, []) :=
  createKey_unsupported_algorithm Ref.lib Ref.sdk [] ⟨"a", "", false, "ed25519", ""⟩ []
    (by decide) (by decide)

/-- C4: when `privateKey` is not empty and is not the hex encoding of exactly
32 bytes, `createKey` fails, returns no response and the storage state after
the call is the state before it; when the field decodes to n bytes (n not 32)
the error is "invalid private key length: n", and when it does not decode
(odd length, or a character that is not a hex digit) the error is the one of
the hex decoder. -/
theorem createKey_bad_privateKey (lib : Atcrypto PrivK PubK) (sdk : Sdk σ V) (st : σ)
    (data : FieldData) (rnd : Entropy) (hne : data.privateKey ≠ "")
    (hbad : ¬ ∃ bs, DecodeString data.privateKey = .ok bs ∧ bs.length = 32) :
    (createKey lib sdk st data rnd).1.err ≠ none ∧
    (createKey lib sdk st data rnd).1.resp = none ∧
    (createKey lib sdk st data rnd).2 = st ∧
    (∀ bs, DecodeString data.privateKey = .ok bs →
      (createKey lib sdk st data rnd).1.err =
        some (.errorf ("invalid private key length: " ++ toString bs.length))) ∧
    (∀ err, DecodeString data.privateKey = .error err →
      (createKey lib sdk st data rnd).1.err = some err) ∧
    ((data.privateKey.length % 2 = 1 ∨ ∃ c ∈ data.privateKey.data, 0x0f < reverseHexTable c) →
      ∃ err, DecodeString data.privateKey = .error err) := by
  have hbad2 : ∀ bs, DecodeString data.privateKey = .ok bs → bs.length ≠ 32 :=
    fun bs h hl => hbad ⟨bs, h, hl⟩
  have h := createKey_of_privKey_error lib sdk st data rnd _
    (createKey_privKey_bad lib data.privateKey data.algorithm rnd hne hbad2)
  rw [h]
  refine ⟨by simp, rfl, rfl, ?_, ?_, ?_⟩
  · intro bs hd
    simp only [hd]
  · intro err hd
    simp only [hd]
  · intro hc
    cases hd : DecodeString data.privateKey with
    | error err => exact ⟨err, rfl⟩
    | ok bs =>
      have := (DecodeString_ok_iff data.privateKey).1 ⟨bs, hd⟩
      rcases hc with hc | ⟨c, hc, hlt⟩
      · omega
      · have := this.2 c hc
        omega

/-- Witness for C4: the hex of 31 bytes as `privateKey`. -/
theorem createKey_bad_privateKey_witness :
    (createKey Ref.lib Ref.sdk [] ⟨"a", EncodeToString (Ref.scalar.take 31), true, "p256", ""⟩
      []).1.err = some (.errorf "invalid private key length: 31") :=
  (createKey_bad_privateKey Ref.lib Ref.sdk []
    ⟨"a", EncodeToString (Ref.scalar.take 31), true, "p256", ""⟩ [] (by decide)
    (fun ⟨_, h, hl⟩ => by
      cases (DecodeString_EncodeToString (Ref.scalar.take 31)).symm.trans h
      revert hl
      decide)).2.2.2.1 (Ref.scalar.take 31)
    (DecodeString_EncodeToString (Ref.scalar.take 31))

/-- C6: on the in-memory storage, when `createKey` succeeds it returns a
public key p, and `readKey` of the same name in the resulting store succeeds
with exactly `exportable` as requested and `public_key` p, whatever was stored
before; the resulting store is the new entry followed by the old entries of
other paths, so no earlier entry of that path survives; and the result of
`createKey` does not depend on the store it starts from, so an existing name
is not an error. -/
theorem createKey_then_readKey (lib : Atcrypto PrivK PubK) (json : Json V)
    (hjson : JsonLaw json) (st : Store V) (data : FieldData) (rnd : Entropy)
    (hok : (createKey lib (inmem json) st data rnd).1.err = none) :
    ∃ p entry,
      createKey lib (inmem json) st data rnd =
        (⟨some ⟨[("public_key", .str p)]⟩, none⟩,
          entry :: st.filter fun e => e.Key != "keys/" ++ data.name) ∧
      entry.Key = "keys/" ++ data.name ∧
      (∀ data2 : FieldData, data2.name = data.name →
        readKey (inmem json) (createKey lib (inmem json) st data rnd).2 data2 =
          (⟨some ⟨[("exportable", .bool data.exportable), ("public_key", .str p)]⟩, none⟩,
            (createKey lib (inmem json) st data rnd).2)) ∧
      (∀ e ∈ (createKey lib (inmem json) st data rnd).2,
        e.Key = "keys/" ++ data.name → e = entry) ∧
      (∀ st0 : Store V, (createKey lib (inmem json) st0 data rnd).1 =
        (createKey lib (inmem json) st data rnd).1) := by
  obtain ⟨privKey, pubKey, entry, st1, h1, h2, h3, h4, h5⟩ :=
    createKey_ok lib (inmem json) st data rnd hok
  have h3j : json.StorageEntryJSON ("keys/" ++ data.name)
      ⟨data.exportable, lib.PrivMultibase privKey, lib.PubMultibase pubKey⟩ = .ok entry := h3
  obtain ⟨hkey, hdec⟩ := hjson _ _ _ h3j
  have hst : st1 = st.put entry := by
    have : (Except.ok (st.put entry) : Except Error (Store V)) = .ok st1 := h4
    cases this
    rfl
  subst hst
  refine ⟨lib.PubMultibase pubKey, entry, ?_, hkey, ?_, ?_, ?_⟩
  · rw [h5, Store.put, hkey]
  · intro data2 hname
    rw [h5]
    have hget : (inmem json).Get (st.put entry) ("keys/" ++ data2.name) = .ok (some entry) := by
      rw [hname, ← hkey]
      exact congrArg Except.ok (Store.get_put st entry)
    have hread : internalReadKey (inmem json) (st.put entry) data2.name =
        .ok ⟨data.exportable, lib.PrivMultibase privKey, lib.PubMultibase pubKey⟩ := by
      rw [internalReadKey_some _ _ _ entry hget]
      exact hdec
    simp only [readKey, hread]
  · intro e he hk
    rw [h5] at he
    rcases Store.mem_put st entry e he with h | ⟨_, hne⟩
    · exact h
    · exact absurd (hk.trans hkey.symm) hne
  · intro st0
    rw [h5]
    unfold createKey
    simp only [h1, h2]
    have h3b : (inmem json).StorageEntryJSON ("keys/" ++ data.name)
      ⟨data.exportable, lib.PrivMultibase privKey, lib.PubMultibase pubKey⟩ = .ok entry := h3
    simp only [h3b]
    rfl

/-- C7: on the in-memory storage `deleteKey` succeeds, without a response,
whether or not something is stored at `keys/<name>`; it leaves the store as
it was when nothing is stored there; in the store after it `readKey` of that
name fails with "key not found"; and a second `deleteKey` gives the store
that the first one gave. -/
theorem deleteKey_idempotent (json : Json V) (st : Store V) (data : FieldData) :
    (deleteKey (inmem json) st data).1 = ⟨none, none⟩ ∧
    ((inmem json).Get st ("keys/" ++ data.name) = .ok none →
      (deleteKey (inmem json) st data).2 = st) ∧
    (∀ data2 : FieldData, data2.name = data.name →
      readKey (inmem json) (deleteKey (inmem json) st data).2 data2 =
        (⟨none, some (.errorf "key not found")⟩, (deleteKey (inmem json) st data).2)) ∧
    (deleteKey (inmem json) (deleteKey (inmem json) st data).2 data).2 =
      (deleteKey (inmem json) st data).2 := by
  have hd : ∀ s : Store V, deleteKey (inmem json) s data =
      (⟨none, none⟩, s.delete ("keys/" ++ data.name)) := fun s => rfl
  refine ⟨by rw [hd], ?_, ?_, ?_⟩
  · intro h
    rw [hd]
    have h2 : (Except.ok (st.get ("keys/" ++ data.name)) :
        Except Error (Option (StorageEntry V))) = .ok none := h
    exact Store.delete_of_get_none st _ (Except.ok.inj h2)
  · intro data2 hname
    rw [hd]
    have hget : (inmem json).Get (st.delete ("keys/" ++ data.name)) ("keys/" ++ data2.name) =
        .ok none := by
      rw [hname]
      exact congrArg Except.ok (Store.get_delete st _)
    simp only [readKey, internalReadKey_none _ _ _ hget]
  · rw [hd, hd]
    exact Store.delete_delete st _

/-- Witness for C7: deleting a name that is not stored, on the in-memory
storage. -/
theorem deleteKey_idempotent_witness :
    (deleteKey Ref.sdk [⟨"keys/b", some ⟨true, "k01", "K01"⟩⟩] ⟨"a", "", false, "", ""⟩).2 =
      [⟨"keys/b", some ⟨true, "k01", "K01"⟩⟩] ∧
    readKey Ref.sdk
        (deleteKey Ref.sdk [⟨"keys/a", some ⟨true, "k01", "K01"⟩⟩] ⟨"a", "", false, "", ""⟩).2
        ⟨"a", "", true, "p256", "00"⟩ =
      (⟨none, some (.errorf "key not found")⟩,
        (deleteKey Ref.sdk [⟨"keys/a", some ⟨true, "k01", "K01"⟩⟩]
          ⟨"a", "", false, "", ""⟩).2) :=
  ⟨(deleteKey_idempotent Ref.json [⟨"keys/b", some ⟨true, "k01", "K01"⟩⟩]
      ⟨"a", "", false, "", ""⟩).2.1 rfl,
    (deleteKey_idempotent Ref.json [⟨"keys/a", some ⟨true, "k01", "K01"⟩⟩]
      ⟨"a", "", false, "", ""⟩).2.2.1 ⟨"a", "", true, "p256", "00"⟩ rfl⟩

/-- C10: `sign` never changes the storage state. It fails with "key not
found" when nothing is stored under the name, whatever the message; with the
error of the key decoder when the stored `private_key` does not parse; and
otherwise with the error of the hex decoder when the message is not hex,
which is exactly when its length is odd or one of its characters is not a hex
digit (the empty message decodes to no bytes). When the key parses, the
message decodes to `bytes` and `HashAndSign` returns a signature, the response
is the single field `signature` with the hex of that signature, written with
the digits 0-9 and a-f; an error of `HashAndSign` is returned as it is. -/
theorem sign_spec (lib : Atcrypto PrivK PubK) (sdk : Sdk σ V) (st : σ) (data : FieldData)
    (rnd : Entropy) :
    (sign lib sdk st data rnd).2 = st ∧
    (sdk.Get st ("keys/" ++ data.name) = .ok none →
      (sign lib sdk st data rnd).1 = ⟨none, some (.errorf "key not found")⟩) ∧
    (∀ e k err, sdk.Get st ("keys/" ++ data.name) = .ok (some e) → sdk.DecodeJSON e = .ok k →
      k.GetPrivateKey lib = .error err →
      (sign lib sdk st data rnd).1 = ⟨none, some err⟩) ∧
    (∀ e k privKey err, sdk.Get st ("keys/" ++ data.name) = .ok (some e) →
      sdk.DecodeJSON e = .ok k → k.GetPrivateKey lib = .ok privKey →
      DecodeString data.message = .error err →
      (sign lib sdk st data rnd).1 = ⟨none, some err⟩) ∧
    (∀ e k privKey bytes sig, sdk.Get st ("keys/" ++ data.name) = .ok (some e) →
      sdk.DecodeJSON e = .ok k → k.GetPrivateKey lib = .ok privKey →
      DecodeString data.message = .ok bytes → lib.HashAndSign privKey bytes rnd = .ok sig →
      (sign lib sdk st data rnd).1 =
        ⟨some ⟨[("signature", .str (EncodeToString sig))]⟩, none⟩) ∧
    (∀ e k privKey bytes err, sdk.Get st ("keys/" ++ data.name) = .ok (some e) →
      sdk.DecodeJSON e = .ok k → k.GetPrivateKey lib = .ok privKey →
      DecodeString data.message = .ok bytes → lib.HashAndSign privKey bytes rnd = .error err →
      (sign lib sdk st data rnd).1 = ⟨none, some err⟩) ∧
    ((∃ bytes, DecodeString data.message = .ok bytes) ↔
      data.message.length % 2 = 0 ∧ ∀ c ∈ data.message.data, reverseHexTable c ≤ 0x0f) ∧
    (data.message = "" → DecodeString data.message = .ok []) ∧
    (∀ sig : Bytes, ∀ c ∈ (EncodeToString sig).data, c ∈ hextable) := by
  refine ⟨?_, ?_, ?_, ?_, ?_, ?_, DecodeString_ok_iff data.message, ?_,
    EncodeToString_lowercase⟩
  · rcases sign_shape lib sdk st data rnd with ⟨err, h⟩ | ⟨sig, h⟩ <;> rw [h]
  · intro h
    simp only [sign, internalReadKey_none sdk st data.name h]
  · intro e k err hg hd hp
    simp only [sign, internalReadKey_some sdk st data.name e hg, hd, hp]
  · intro e k privKey err hg hd hp hm
    simp only [sign, internalReadKey_some sdk st data.name e hg, hd, hp, hm]
  · intro e k privKey bytes sig hg hd hp hm hs
    simp only [sign, internalReadKey_some sdk st data.name e hg, hd, hp, hm, hs]
  · intro e k privKey bytes err hg hd hp hm hs
    simp only [sign, internalReadKey_some sdk st data.name e hg, hd, hp, hm, hs]
  · intro h
    rw [h]
    rfl

/-- Witness for C10: a missing key, and a signature over the bytes de ad be ef
given in mixed case, on the in-memory storage. -/
theorem sign_spec_witness :
    (sign Ref.lib Ref.sdk [] ⟨"a", "", false, "", "zz"⟩ []).1 =
      ⟨none, some (.errorf "key not found")⟩ ∧
    (sign Ref.lib Ref.sdk [⟨"keys/a", some ⟨false, "k0102", "K0201"⟩⟩]
        ⟨"a", "", false, "", "DEADbeef"⟩ []).1 =
      ⟨some ⟨[("signature", .str "0102deadbeef")]⟩, none⟩ :=
  ⟨(sign_spec Ref.lib Ref.sdk [] ⟨"a", "", false, "", "zz"⟩ []).2.1 rfl,
    (sign_spec Ref.lib Ref.sdk [⟨"keys/a", some ⟨false, "k0102", "K0201"⟩⟩]
      ⟨"a", "", false, "", "DEADbeef"⟩ []).2.2.2.2.1 _ _ _ _ _ rfl rfl rfl rfl rfl⟩

/-- Witness for C6: creating "a" over an older record of that name, then
reading it, on the in-memory storage. -/
theorem createKey_then_readKey_witness :
    ∃ p, readKey Ref.sdk
        (createKey Ref.lib Ref.sdk [⟨"keys/a", some ⟨false, "k01", "K01"⟩⟩]
          ⟨"a", EncodeToString Ref.scalar, true, "p256", ""⟩ []).2
        ⟨"a", "", false, "", ""⟩ =
      (⟨some ⟨[("exportable", .bool true), ("public_key", .str p)]⟩, none⟩,
        (createKey Ref.lib Ref.sdk [⟨"keys/a", some ⟨false, "k01", "K01"⟩⟩]
          ⟨"a", EncodeToString Ref.scalar, true, "p256", ""⟩ []).2) :=
  let ⟨p, _, _, _, h, _⟩ := createKey_then_readKey Ref.lib Ref.json Ref.json_law
    [⟨"keys/a", some ⟨false, "k01", "K01"⟩⟩]
    ⟨"a", EncodeToString Ref.scalar, true, "p256", ""⟩ [] (by decide)
  ⟨p, h ⟨"a", "", false, "", ""⟩ rfl⟩

/-- C5: under the contracts of the JSON helpers and of the key codec, on the
in-memory storage: when `createKey` with `exportable = true` and `privateKey`
the hex of a 32-byte scalar s succeeds, its algorithm is one of the two
supported ones, the import of that algorithm accepted s as a key k, and the
call returned a public key p; `exportKey` of the same name in the resulting
store succeeds with `public_key` p and `private_key` the text encoding of k;
and that encoding parses back to a key whose raw bytes are s. -/
theorem roundtrip_import_export (lib : Atcrypto PrivK PubK) (json : Json V)
    (hjson : JsonLaw json) (hcodec : CodecLaw lib) (st : Store V) (data : FieldData)
    (rnd : Entropy) (s : Bytes) (hlen : s.length = 32)
    (hpk : data.privateKey = EncodeToString s) (hexp : data.exportable = true)
    (hok : (createKey lib (inmem json) st data rnd).1.err = none) :
    ∃ k p k2,
      ((data.algorithm = "secp256k1" ∧ lib.ParsePrivateBytesK256 s = .ok k) ∨
        (data.algorithm = "p256" ∧ lib.ParsePrivateBytesP256 s = .ok k)) ∧
      (createKey lib (inmem json) st data rnd).1 =
        ⟨some ⟨[("public_key", .str p)]⟩, none⟩ ∧
      (∀ data2 : FieldData, data2.name = data.name →
        exportKey (inmem json) (createKey lib (inmem json) st data rnd).2 data2 =
          (⟨some ⟨[("public_key", .str p), ("private_key", .str (lib.PrivMultibase k))]⟩,
            none⟩, (createKey lib (inmem json) st data rnd).2)) ∧
      lib.ParsePrivateMultibase (lib.PrivMultibase k) = .ok k2 ∧
      lib.PrivBytes k2 = s := by
  obtain ⟨privKey, pubKey, entry, st1, h1, h2, h3, h4, h5⟩ :=
    createKey_ok lib (inmem json) st data rnd hok
  have h3j : json.StorageEntryJSON ("keys/" ++ data.name)
      ⟨data.exportable, lib.PrivMultibase privKey, lib.PubMultibase pubKey⟩ = .ok entry := h3
  obtain ⟨hkey, hdec⟩ := hjson _ _ _ h3j
  have hst : st1 = st.put entry := (Except.ok.inj h4).symm
  subst hst
  rw [hpk] at h1
  have himp := createKey_privKey_import lib data.algorithm rnd s hlen privKey h1
  obtain ⟨k2, hk2, hb2⟩ := hcodec.multibase privKey
  have hbytes : lib.PrivBytes privKey = s := by
    rcases himp with ⟨_, h⟩ | ⟨_, h⟩
    · exact hcodec.bytesK256 s privKey h
    · exact hcodec.bytesP256 s privKey h
  refine ⟨privKey, lib.PubMultibase pubKey, k2, himp, by rw [h5], ?_, hk2, hb2.trans hbytes⟩
  intro data2 hname
  rw [h5]
  have hget : (inmem json).Get (st.put entry) ("keys/" ++ data2.name) = .ok (some entry) := by
    rw [hname, ← hkey]
    exact congrArg Except.ok (Store.get_put st entry)
  have hread : internalReadKey (inmem json) (st.put entry) data2.name =
      .ok ⟨data.exportable, lib.PrivMultibase privKey, lib.PubMultibase pubKey⟩ := by
    rw [internalReadKey_some _ _ _ entry hget]
    exact hdec
  simp [exportKey, hread, hexp]

/-- Witness for C5: importing the scalar 1, 2, ..., 32 as a secp256k1 key
named "a" into the empty in-memory store, then exporting it. -/
theorem roundtrip_import_export_witness :
    ∃ k p k2,
      (("secp256k1" = "secp256k1" ∧ Ref.lib.ParsePrivateBytesK256 Ref.scalar = .ok k) ∨
        ("secp256k1" = "p256" ∧ Ref.lib.ParsePrivateBytesP256 Ref.scalar = .ok k)) ∧
      (createKey Ref.lib Ref.sdk [] ⟨"a", EncodeToString Ref.scalar, true, "secp256k1", ""⟩
        []).1 = ⟨some ⟨[("public_key", .str p)]⟩, none⟩ ∧
      (∀ data2 : FieldData, data2.name = "a" →
        exportKey Ref.sdk
          (createKey Ref.lib Ref.sdk [] ⟨"a", EncodeToString Ref.scalar, true, "secp256k1", ""⟩
            []).2 data2 =
          (⟨some ⟨[("public_key", .str p),
            ("private_key", .str (Ref.lib.PrivMultibase k))]⟩, none⟩,
            (createKey Ref.lib Ref.sdk []
              ⟨"a", EncodeToString Ref.scalar, true, "secp256k1", ""⟩ []).2)) ∧
      Ref.lib.ParsePrivateMultibase (Ref.lib.PrivMultibase k) = .ok k2 ∧
      Ref.lib.PrivBytes k2 = Ref.scalar :=
  roundtrip_import_export Ref.lib Ref.json Ref.json_law Ref.codec_law []
    ⟨"a", EncodeToString Ref.scalar, true, "secp256k1", ""⟩ [] Ref.scalar (by decide) rfl rfl
    (by decide)

/-- C8: whatever entries the storage returns for the prefix "keys/",
`listKeys` succeeds without changing the state and returns, under `keys`,
the entries that do not end with "/": a sublist of the entries (same relative
order), no returned name ends with "/", and every entry that does not end with
"/" is returned as many times as the storage gave it. On the in-memory
storage, under the contract of the JSON helpers, after three successful
`createKey` calls for the names "a", "b" and "c" from the empty store, the
listed names are exactly "a", "b" and "c". -/
theorem listKeys_leaf_names (sdk : Sdk σ V) (st : σ) (entries : List String)
    (lib : Atcrypto PrivK PubK) (json : Json V) :
    (sdk.List st "keys/" = .ok entries →
      ∃ resp, listKeys sdk st = (⟨some resp, none⟩, st) ∧
        (listedNames resp).Sublist entries ∧
        (∀ n ∈ listedNames resp, ¬ ∃ t : String, n = t ++ "/") ∧
        (∀ n ∈ entries, (¬ ∃ t : String, n = t ++ "/") → n ∈ listedNames resp) ∧
        (∀ n, (¬ ∃ t : String, n = t ++ "/") →
          (listedNames resp).count n = entries.count n)) ∧
    (JsonLaw json → ∀ (da db dc : FieldData) (ra rb rc : Entropy),
      da.name = "a" → db.name = "b" → dc.name = "c" →
      (createKey lib (inmem json) [] da ra).1.err = none →
      (createKey lib (inmem json) (createKey lib (inmem json) [] da ra).2 db rb).1.err = none →
      (createKey lib (inmem json)
        (createKey lib (inmem json) (createKey lib (inmem json) [] da ra).2 db rb).2
        dc rc).1.err = none →
      ∃ resp,
        (listKeys (inmem json)
          (createKey lib (inmem json)
            (createKey lib (inmem json) (createKey lib (inmem json) [] da ra).2 db rb).2
            dc rc).2).1 = ⟨some resp, none⟩ ∧
        ∀ n, n ∈ listedNames resp ↔ n = "a" ∨ n = "b" ∨ n = "c") := by
  constructor
  · intro h
    refine ⟨ListResponse (entries.filter fun s => !HasSuffix s "/"), ?_, ?_⟩
    · simp only [listKeys, h, DeleteFunc]
      congr 4
      apply List.filter_congr
      intro x _
      cases HasSuffix x "/" <;> rfl
    · rw [listedNames_ListResponse]
      refine ⟨List.filter_sublist _, ?_, ?_, ?_⟩
      · intro n hn
        rw [List.mem_filter] at hn
        intro hs
        have := (HasSuffix_slash_iff n).2 hs
        simp [this] at hn
      · intro n hn hs
        rw [List.mem_filter]
        refine ⟨hn, ?_⟩
        cases hc : HasSuffix n "/" with
        | false => rfl
        | true => exact absurd ((HasSuffix_slash_iff n).1 hc) hs
      · intro n hs
        apply List.count_filter
        cases hc : HasSuffix n "/" with
        | false => rfl
        | true => exact absurd ((HasSuffix_slash_iff n).1 hc) hs
  · intro hjson da db dc ra rb rc hna hnb hnc ha hb hc
    obtain ⟨_, ea, hca, hka, _⟩ := createKey_inmem_ok lib json hjson [] da ra ha
    rw [hca] at hb hc ⊢
    obtain ⟨_, eb, hcb, hkb, _⟩ := createKey_inmem_ok lib json hjson _ db rb hb
    rw [hcb] at hc ⊢
    obtain ⟨_, ec, hcc, hkc, _⟩ := createKey_inmem_ok lib json hjson _ dc rc hc
    rw [hcc]
    obtain ⟨ka, va⟩ := ea
    obtain ⟨kb, vb⟩ := eb
    obtain ⟨kc, vc⟩ := ec
    simp only [hna, hnb, hnc] at hka hkb hkc ⊢
    subst hka hkb hkc
    have hstore : (⟨"keys/" ++ "c", vc⟩ ::
        List.filter (fun e : StorageEntry V => e.Key != "keys/" ++ "c")
          (⟨"keys/" ++ "b", vb⟩ ::
            List.filter (fun e : StorageEntry V => e.Key != "keys/" ++ "b")
              (⟨"keys/" ++ "a", va⟩ ::
                List.filter (fun e : StorageEntry V => e.Key != "keys/" ++ "a") []))) =
        ([⟨"keys/c", vc⟩, ⟨"keys/b", vb⟩, ⟨"keys/a", va⟩] : Store V) := by
      rfl
    rw [hstore]
    refine ⟨ListResponse ["c", "b", "a"], ?_, ?_⟩
    · have hl : (inmem json).List ([⟨"keys/c", vc⟩, ⟨"keys/b", vb⟩, ⟨"keys/a", va⟩] : Store V)
          "keys/" = .ok ["c", "b", "a"] := congrArg Except.ok (Store.list_abc va vb vc)
      simp only [listKeys, hl]
      rfl
    · intro n
      rw [listedNames_ListResponse]
      simp only [List.mem_cons, List.mem_singleton, List.not_mem_nil, or_false]
      tauto

/-- Witness for C8: a store with the leaf `keys/a` and the nested path
`keys/b/c`, whose listing is "a", "b/"; and three generated keys "a", "b",
"c" in the empty in-memory store. -/
theorem listKeys_leaf_names_witness :
    (∃ resp, listKeys Ref.sdk [⟨"keys/a", none⟩, ⟨"keys/b/c", none⟩] =
        (⟨some resp, none⟩, [⟨"keys/a", none⟩, ⟨"keys/b/c", none⟩]) ∧
      (listedNames resp).Sublist ["a", "b/"] ∧
      (∀ n ∈ listedNames resp, ¬ ∃ t : String, n = t ++ "/") ∧
      (∀ n ∈ ["a", "b/"], (¬ ∃ t : String, n = t ++ "/") → n ∈ listedNames resp) ∧
      (∀ n, (¬ ∃ t : String, n = t ++ "/") →
        (listedNames resp).count n = ["a", "b/"].count n)) ∧
    (∃ resp,
      (listKeys Ref.sdk
        (createKey Ref.lib Ref.sdk
          (createKey Ref.lib Ref.sdk
            (createKey Ref.lib Ref.sdk [] ⟨"a", "", false, "secp256k1", ""⟩ Ref.scalar).2
            ⟨"b", "", true, "p256", ""⟩ Ref.scalar).2
          ⟨"c", "", false, "secp256k1", ""⟩ Ref.scalar).2).1 = ⟨some resp, none⟩ ∧
      ∀ n, n ∈ listedNames resp ↔ n = "a" ∨ n = "b" ∨ n = "c") :=
  ⟨(listKeys_leaf_names Ref.sdk [⟨"keys/a", none⟩, ⟨"keys/b/c", none⟩] ["a", "b/"]
      Ref.lib Ref.json).1 rfl,
    (listKeys_leaf_names Ref.sdk [] [] Ref.lib Ref.json).2 Ref.json_law
      ⟨"a", "", false, "secp256k1", ""⟩ ⟨"b", "", true, "p256", ""⟩
      ⟨"c", "", false, "secp256k1", ""⟩ Ref.scalar Ref.scalar Ref.scalar rfl rfl rfl
      (by decide) (by decide) (by decide)⟩

/-- C9: under the contract of the JSON helpers, on the in-memory storage: the
empty store satisfies the key-pair invariant; every request preserves it (a
successful `createKey`, importing or generating, stores a record that
satisfies it, `deleteKey` only removes entries, and the four other callbacks
leave the store as it is); hence in every store reached from the empty store
by a finite sequence of requests, every stored entry decodes to a record
whose `private_key` is the encoding of a supported private key k and whose
`public_key` is the encoding of the public key derived from k. -/
theorem keypair_invariant (lib : Atcrypto PrivK PubK) (json : Json V) (hjson : JsonLaw json) :
    StoreInv lib json [] ∧
    (∀ (st : Store V) (req : Request), StoreInv lib json st →
      StoreInv lib json (handle lib (inmem json) st req).2) ∧
    (∀ (st : Store V) (req : Request), req.callback ≠ .createKey → req.callback ≠ .deleteKey →
      (handle lib (inmem json) st req).2 = st) ∧
    (∀ (st : Store V) (data : FieldData) (rnd : Entropy),
      (createKey lib (inmem json) st data rnd).1.err = none →
      ∃ e, (inmem json).Get (createKey lib (inmem json) st data rnd).2 ("keys/" ++ data.name) =
        .ok (some e) ∧ RecordInv lib json e) ∧
    (∀ reqs : List Request, ∀ e ∈ runRequests lib (inmem json) [] reqs,
      ∃ k pub rec, Supported lib k ∧ lib.PublicKey k = .ok pub ∧
        json.DecodeJSON e = .ok rec ∧ rec.PrivateKey = lib.PrivMultibase k ∧
        rec.PublicKey = lib.PubMultibase pub) := by
  have hstep : ∀ (st : Store V) (req : Request), StoreInv lib json st →
      StoreInv lib json (handle lib (inmem json) st req).2 := by
    intro st req hinv
    obtain ⟨cb, data, rnd⟩ := req
    cases cb with
    | listKeys =>
      simp only [handle]
      rcases listKeys_shape (inmem json) st with ⟨_, h⟩ | ⟨_, h⟩ <;> rw [h] <;> exact hinv
    | createKey =>
      simp only [handle]
      rcases createKey_shape lib (inmem json) st data rnd with ⟨_, h⟩ | ⟨p, st1, h⟩
      · rw [h]; exact hinv
      · have hok : (createKey lib (inmem json) st data rnd).1.err = none := by rw [h]
        obtain ⟨_, entry, hc, _, hrec⟩ := createKey_inmem_ok lib json hjson st data rnd hok
        rw [hc]
        intro e he
        simp only [List.mem_cons, List.mem_filter] at he
        rcases he with he | ⟨he, _⟩
        · rw [he]; exact hrec
        · exact hinv e he
    | deleteKey =>
      intro e he
      exact hinv e (Store.mem_delete st _ e he).1
    | readKey =>
      simp only [handle]
      rcases readKey_shape (inmem json) st data with ⟨_, h⟩ | ⟨_, _, h⟩ <;> rw [h] <;> exact hinv
    | exportKey =>
      simp only [handle]
      rcases exportKey_shape (inmem json) st data with ⟨_, h⟩ | ⟨_, _, _, h⟩ <;> rw [h] <;>
        exact hinv
    | sign =>
      simp only [handle]
      rcases sign_shape lib (inmem json) st data rnd with ⟨_, h⟩ | ⟨_, h⟩ <;> rw [h] <;>
        exact hinv
  have hrun : ∀ (reqs : List Request) (st : Store V), StoreInv lib json st →
      StoreInv lib json (runRequests lib (inmem json) st reqs) := by
    intro reqs
    induction reqs with
    | nil => intro st h; exact h
    | cons req rest ih => intro st h; exact ih _ (hstep st req h)
  have hnil : StoreInv lib json ([] : Store V) := by
    intro e he
    cases he
  refine ⟨hnil, hstep, ?_, ?_, fun reqs => hrun reqs [] hnil⟩
  · intro st req h1 h2
    obtain ⟨cb, data, rnd⟩ := req
    cases cb with
    | listKeys =>
      simp only [handle]
      rcases listKeys_shape (inmem json) st with ⟨_, h⟩ | ⟨_, h⟩ <;> rw [h]
    | createKey => exact absurd rfl h1
    | deleteKey => exact absurd rfl h2
    | readKey =>
      simp only [handle]
      rcases readKey_shape (inmem json) st data with ⟨_, h⟩ | ⟨_, _, h⟩ <;> rw [h]
    | exportKey =>
      simp only [handle]
      rcases exportKey_shape (inmem json) st data with ⟨_, h⟩ | ⟨_, _, _, h⟩ <;> rw [h]
    | sign =>
      simp only [handle]
      rcases sign_shape lib (inmem json) st data rnd with ⟨_, h⟩ | ⟨_, h⟩ <;> rw [h]
  · intro st data rnd hok
    obtain ⟨_, entry, hc, hkey, hrec⟩ := createKey_inmem_ok lib json hjson st data rnd hok
    refine ⟨entry, ?_, hrec⟩
    rw [hc, ← hkey]
    exact congrArg Except.ok (Store.get_put st entry)

/-- Witness for C9: the invariant in the store reached by generating "a", importing "b",
deleting "a" and signing with "b". -/
theorem keypair_invariant_witness :
    runRequests Ref.lib Ref.sdk []
        [⟨.createKey, ⟨"a", "", false, "secp256k1", ""⟩, Ref.scalar⟩,
          ⟨.createKey, ⟨"b", EncodeToString Ref.scalar, true, "p256", ""⟩, []⟩,
          ⟨.deleteKey, ⟨"a", "", false, "", ""⟩, []⟩,
          ⟨.sign, ⟨"b", "", false, "", "00ff"⟩, []⟩] =
      [⟨"keys/b", some ⟨true, Ref.privText ⟨false, Ref.scalar⟩,
        Ref.lib.PubMultibase ⟨false, Ref.scalar.reverse⟩⟩⟩] ∧
    ∃ k pub rec, Supported Ref.lib k ∧ Ref.lib.PublicKey k = .ok pub ∧
      Ref.json.DecodeJSON ⟨"keys/b", some ⟨true, Ref.privText ⟨false, Ref.scalar⟩,
        Ref.lib.PubMultibase ⟨false, Ref.scalar.reverse⟩⟩⟩ = .ok rec ∧
      rec.PrivateKey = Ref.lib.PrivMultibase k ∧ rec.PublicKey = Ref.lib.PubMultibase pub :=
  ⟨by decide,
    (keypair_invariant Ref.lib Ref.json Ref.json_law).2.2.2.2
      [⟨.createKey, ⟨"a", "", false, "secp256k1", ""⟩, Ref.scalar⟩,
        ⟨.createKey, ⟨"b", EncodeToString Ref.scalar, true, "p256", ""⟩, []⟩,
        ⟨.deleteKey, ⟨"a", "", false, "", ""⟩, []⟩,
        ⟨.sign, ⟨"b", "", false, "", "00ff"⟩, []⟩]
      _ (by decide)⟩

end Claims

end Backend
